import Mathlib

/-!
Verification development for the incipyt lazy configuration-tree engine
(`incipyt/_internal/utils.py` and `incipyt/_internal/templates.py`).

The embedding models:
- format-string parsing as done by `string.Formatter.parse` (restricted to
  the fragment actually used by the engine: named fields without format
  specs or conversions; `\x7b\x7b` and `\x7d\x7d` escapes; malformed or
  out-of-fragment patterns map to `none`, mirroring the exceptions raised
  by CPython there);
- the `Environment` store, which is repository code living outside the two
  source modules, modelled from the spec (see `Env` below);
- `Requires.__call__`, `MultipleValues`, `TemplateDict.__setitem__` and
  `TemplateVisitor.__call__` as executable Lean functions.

Python values appearing in the tree are modelled by `Value`; raw scalar
values are modelled as strings (the spec's data model: raw scalars are
strings that the default wrap turns into template expressions).  Python
functions (sanitizers) are compared by identity, modelled by `Nat` tags
interpreted through an explicit table; transform callbacks are modelled as
Lean functions `String → Value`.  `Option` results model the distinction
between a value and Python `None`; an outer `Option` layer models raised
exceptions (`none` = the call raises / leaves the modelled fragment).
-/

namespace Incipyt

/-- One item of `string.Formatter.parse` output: a literal prefix and an
optional field name (format specs and conversions are outside the modelled
fragment). -/
structure FmtItem where
  lit : String
  field : Option String
deriving DecidableEq, Repr

/-- Association-list lookup with propositional key equality. -/
def alookup {α : Type} : List (String × α) → String → Option α
  | [], _ => none
  | (k1, v) :: rest, k => if k1 = k then some v else alookup rest k

/-- Association-list update: replaces the value in place if the key is
present (mirroring Python dict assignment, which keeps insertion order),
otherwise appends the pair at the end. -/
def aupdate {α : Type} : List (String × α) → String → α → List (String × α)
  | [], k, v => [(k, v)]
  | (k1, w) :: rest, k, v =>
    if k1 = k then (k, v) :: rest else (k1, w) :: aupdate rest k v

mutual

/-- Parser for format strings, mirroring `string.Formatter.parse`:
accumulates a literal chunk (in reverse) and emits an item whenever a field
or an escaped brace closes the chunk.  Returns `none` exactly where CPython
raises (single stray brace) or where the pattern leaves the modelled
fragment: format specs and conversions, and any field that is not a plain
keyword name — empty or all-digit names (positional arguments, on which
`str.format(**args)` raises `IndexError`) and names containing a dot or an
opening bracket (attribute access / element indexing, on which it raises
`KeyError` or resolves attributes instead of substituting the pulled
value). -/
def parseMain (lit : List Char) : List Char → Option (List FmtItem)
  | [] => some (if lit.isEmpty then [] else [⟨String.mk lit.reverse, none⟩])
  | '{' :: '{' :: cs =>
    (parseMain [] cs).map (fun rest => ⟨String.mk (('{' :: lit).reverse), none⟩ :: rest)
  | '}' :: '}' :: cs =>
    (parseMain [] cs).map (fun rest => ⟨String.mk (('}' :: lit).reverse), none⟩ :: rest)
  | '{' :: cs => parseFieldGo lit [] cs
  | '}' :: _ => none
  | c :: cs => parseMain (c :: lit) cs

/-- Reads a field name after an opening brace, then resumes `parseMain`.
Only plain keyword names stay in the fragment: a dot or an opening bracket
in the name, an empty name and an all-digit name (positional) map the
whole pattern out (`none`), since `str.format` does not treat those as
plain keyword lookups. -/
def parseFieldGo (lit facc : List Char) : List Char → Option (List FmtItem)
  | [] => none
  | '}' :: cs =>
    if facc.isEmpty || facc.all Char.isDigit then none
    else
      (parseMain [] cs).map
        (fun rest => ⟨String.mk lit.reverse, some (String.mk facc.reverse)⟩ :: rest)
  | c :: cs =>
    if c = '{' ∨ c = ':' ∨ c = '!' ∨ c = '.' ∨ c = '[' then none
    else parseFieldGo lit (c :: facc) cs

end

/-- `string.Formatter.parse` on a whole pattern. -/
def parseFmt (s : String) : Option (List FmtItem) :=
  parseMain [] s.data

/-- The literal text of a parsed pattern (what a zero-placeholder pattern
formats to). -/
def litText (items : List FmtItem) : String :=
  items.foldl (fun acc it => acc ++ it.lit) ""

/-- `pattern.format(**args)` where `args` is the dict built by
`Requires.__call__`: each field occurrence is substituted by the dict entry
for its name.  Faithful on parsed patterns of the modelled fragment, whose
field names are plain keyword names (see `parseFieldGo`), so `str.format`
looks each one up directly in `args` — never a positional index, an
attribute access or an element indexing. -/
def formatWith (items : List FmtItem) (args : List (String × String)) : String :=
  items.foldl
    (fun acc it =>
      acc ++ it.lit ++ (match it.field with | some k => (alookup args k).getD "" | none => ""))
    ""

/-- Modelled from the spec: one `Environment` record, carrying a raw value
and a confirmation flag.  The empty string models "unset/empty" (the
spec's language-neutral falsy for the string values the engine stores). -/
structure EnvEntry where
  value : String
  confirmed : Bool
deriving DecidableEq, Repr

/-- Modelled from the spec: the `Environment` store (`incipyt/system.py`,
repository code outside the two source modules).  A mapping from variable
name to a value record; `pull` returns the current raw value and
auto-vivifies an empty entry for unknown names; `push` sets the value only
if currently unset, or if `confirmed` upgrades an unconfirmed prior
value. -/
structure Env where
  entries : List (String × EnvEntry)
deriving DecidableEq, Repr

/-- Entry lookup in the environment. -/
def Env.lookup (e : Env) (k : String) : Option EnvEntry :=
  alookup e.entries k

/-- The current raw value of a name, the empty string when unset. -/
def Env.lookupVal (e : Env) (k : String) : String :=
  match e.lookup k with
  | some ent => ent.value
  | none => ""

/-- Modelled from the spec: `Environment.pull` — return the current raw
value, creating an empty unconfirmed entry as a side effect if the name is
unknown. -/
def Env.pull (e : Env) (k : String) : String × Env :=
  match e.lookup k with
  | some ent => (ent.value, e)
  | none => ("", ⟨e.entries ++ [(k, ⟨"", false⟩)]⟩)

/-- Modelled from the spec: `Environment.push` — set the value only if
currently unset, or if `confirmed` upgrades an unconfirmed prior value. -/
def Env.push (e : Env) (k v : String) (c : Bool) : Env :=
  match e.lookup k with
  | none => ⟨e.entries ++ [(k, ⟨v, c⟩)]⟩
  | some ent =>
    if ent.value = "" then ⟨aupdate e.entries k ⟨v, c⟩⟩
    else if c && !ent.confirmed then ⟨aupdate e.entries k ⟨v, c⟩⟩
    else e

/-- The state of a `Requires` object (`utils.py:46`): the format-string
template, the `confirmed` flag, an optional sanitizer (a Python function,
compared by identity, hence modelled as a `Nat` tag interpreted through an
explicit table at call time) and the `**kwargs` overrides. -/
structure ReqData where
  template : String
  confirmed : Bool
  sanitizer : Option Nat
  kwargs : List (String × String)
deriving DecidableEq, Repr

/-- The sanitizer-function table: tag `t` names the Python function
`interp t`. -/
abbrev SanInterp := Nat → String → String → String

/-- Apply the configured sanitizer, if any, to a pulled value. -/
def sanApply (interp : SanInterp) (san : Option Nat) (k v : String) : String :=
  match san with
  | some t => interp t k v
  | none => v

/-- The push loop of `Requires.__call__` (`utils.py:69-73`): for every
parse item whose field name is a key of the overrides, push the override
value with the expression's confirmed flag. -/
def pushKw (r : ReqData) (items : List FmtItem) (env : Env) : Env :=
  items.foldl
    (fun e it =>
      match it.field with
      | some k =>
        match alookup r.kwargs k with
        | some v => e.push k v r.confirmed
        | none => e
      | none => e)
    env

/-- The args-dict comprehension of `Requires.__call__` (`utils.py:75-83`):
pull every named placeholder occurrence (threading the environment, since
`pull` auto-vivifies), sanitize it, and record it in a dict keyed by
name (a later occurrence overwrites, as in the Python comprehension). -/
def pullArgs (interp : SanInterp) (r : ReqData) (items : List FmtItem)
    (args : List (String × String)) (env : Env) : List (String × String) × Env :=
  match items with
  | [] => (args, env)
  | it :: rest =>
    match it.field with
    | some k =>
      let p := env.pull k
      pullArgs interp r rest (aupdate args k (sanApply interp r.sanitizer k p.1)) p.2
    | none => pullArgs interp r rest args env

/-- `Requires.__call__` (`utils.py:68-87`): push the overrides that occur
in the pattern, pull and sanitize every placeholder, return `None` if any
resolved value is falsy, else the formatted pattern.  The outer `Option`
is `none` when the pattern is malformed or outside the modelled fragment
(where CPython raises instead of returning). -/
def Requires.call (interp : SanInterp) (r : ReqData) (env : Env) :
    Option (Option String × Env) :=
  match parseFmt r.template with
  | none => none
  | some items =>
    let env1 := pushKw r items env
    let p := pullArgs interp r items [] env1
    if p.1.any (fun kv => kv.2 = "") then some (none, p.2)
    else some (some (formatWith items p.1), p.2)

/-- A Python value stored in the configuration tree: a raw string, `None`,
a `Requires` expression, a `MultipleValues` conflict set (its ordered
candidate list), a nested mapping (a dict, kept in insertion order) or a
sequence. -/
inductive Value where
  | vstr : String → Value
  | vnone : Value
  | vreq : ReqData → Value
  | vmult : List Value → Value
  | vmap : List (String × Value) → Value
  | vlist : List Value → Value
deriving Repr

/-- A configuration (sub)tree: the underlying dict proxied by
`TemplateDict`, keys in insertion order. -/
abbrev Tree := List (String × Value)

/-- Python `callable(value)`: `Requires` and `MultipleValues` instances
are callable, raw strings, `None`, dicts and lists are not. -/
def pyCallable : Value → Bool
  | .vreq _ => true
  | .vmult _ => true
  | _ => false

/-- `True` exactly for `MultipleValues` instances. -/
def isMultB : Value → Bool
  | .vmult _ => true
  | _ => false

/-- `True` exactly for `None`. -/
def isNoneV : Value → Bool
  | .vnone => true
  | _ => false

/-- Python `==` on string-valued dicts (the `_kwargs` comparison inside
`Requires.__eq__`): order-insensitive, same keys and values. -/
def dictBeqStr (a b : List (String × String)) : Bool :=
  a.length = b.length && a.all (fun kv => alookup b kv.1 = some kv.2)

/-- Python `==` on `Requires` objects (`utils.py:65-66`, via `attrs_eq`):
compare template, confirmed flag, sanitizer (function identity, i.e. tag
equality) and the kwargs dict. -/
def reqBeq (a b : ReqData) : Bool :=
  a.template = b.template && a.confirmed = b.confirmed
    && a.sanitizer = b.sanitizer && dictBeqStr a.kwargs b.kwargs

theorem sizeOf_alookup {b : List (String × Value)} {k : String} {w : Value}
    (h : alookup b k = some w) : sizeOf w < sizeOf b := by
  induction b with
  | nil => simp [alookup] at h
  | cons hd tl ih =>
    obtain ⟨k1, v⟩ := hd
    simp only [alookup] at h
    split at h
    · cases h; simp; omega
    · have := ih h
      simp
      omega

mutual

/-- Python `==` between tree values.  Cross-type comparisons are `False`
(`attrs_eq` catches the `AttributeError`); `MultipleValues` compare by
their candidate lists, lists element-wise in order, dicts
order-insensitively by key. -/
def valueBeq (x y : Value) : Bool :=
  match x, y with
  | .vstr a, .vstr b => a = b
  | .vnone, .vnone => true
  | .vreq a, .vreq b => reqBeq a b
  | .vmult a, .vmult b => vlistBeq a b
  | .vlist a, .vlist b => vlistBeq a b
  | .vmap a, .vmap b => a.length = b.length && treeSubBeq a b
  | _, _ => false
termination_by sizeOf x + sizeOf y
decreasing_by all_goals simp_wf <;> omega

/-- Element-wise Python `==` on lists of tree values. -/
def vlistBeq (x y : List Value) : Bool :=
  match x, y with
  | [], [] => true
  | a :: as0, b :: bs0 => valueBeq a b && vlistBeq as0 bs0
  | _, _ => false
termination_by sizeOf x + sizeOf y
decreasing_by all_goals simp_wf <;> omega

/-- Every pair of the first dict matches the second dict by key. -/
def treeSubBeq (x y : List (String × Value)) : Bool :=
  match x, y with
  | [], _ => true
  | (k, v) :: rest, b =>
    (match h : alookup b k with
     | some w =>
       have _hw : sizeOf w < sizeOf b := sizeOf_alookup h
       valueBeq v w
     | none => false)
    && treeSubBeq rest b
termination_by sizeOf x + sizeOf y
decreasing_by all_goals simp_wf <;> omega

end

/-- `MultipleValues.__init__` (`utils.py:91-94`): an already-Conflict-Set
tail is flattened into the candidate list, any other tail gives the
two-candidate list `[head, tail]`; the new (most recent) value is always
the head. -/
def mvMk (head tail : Value) : Value :=
  match tail with
  | .vmult l => .vmult (head :: l)
  | _ => .vmult [head, tail]

/-- The candidate list of a Conflict Set. -/
def mvCandidates : Value → List Value
  | .vmult l => l
  | _ => []

/-- A scalar right-hand side of a `TemplateDict` assignment: a raw string,
or an already-callable object (a `Requires` or a `MultipleValues`). -/
inductive PyScal where
  | pstr : String → PyScal
  | preq : ReqData → PyScal
  | pmult : List Value → PyScal

/-- A right-hand side of a `TemplateDict` assignment: a scalar, a
non-string sequence of scalars, or a mapping (assigned as a subtree).  A
`Transform` wrapper is modelled by the transform argument threaded through
`setItemGo`, exactly as `__setitem__` unwraps it first thing
(`utils.py:121`). -/
inductive PyVal where
  | scal : PyScal → PyVal
  | pseq : List PyScal → PyVal
  | pmap : List (String × PyVal) → PyVal

/-- `TemplateDict._get_value` (`utils.py:189-204`) on an unwrapped scalar:
a callable is kept as-is, a raw value goes through the transform (the
default transform builds a `Requires` from the raw string). -/
def getValue (s : PyScal) (transform : String → Value) : Value :=
  match s with
  | .pstr t => transform t
  | .preq r => .vreq r
  | .pmult l => .vmult l

/-- The raw Python object behind a scalar right-hand side, as it takes
part in the `v not in config[key]` dedup check (before any transform). -/
def scalRaw (s : PyScal) : Value :=
  match s with
  | .pstr t => .vstr t
  | .preq r => .vreq r
  | .pmult l => .vmult l

/-- The `v not in config[key]` membership test of the sequence branch
(`utils.py:148`): Python `in`, comparing the raw element against each
stored element with `==`. -/
def pyContains (s : PyScal) (l : List Value) : Bool :=
  l.any (fun w => valueBeq (scalRaw s) w)

/-- The element loop of the sequence branch (`utils.py:147-149`): append
the transformed element unless the raw element compares equal to one
already in the list (the check runs against the current list, including
elements appended earlier in the same loop). -/
def appendElems (cur : List Value) (elems : List PyScal) (transform : String → Value) :
    List Value :=
  match elems with
  | [] => cur
  | e :: rest =>
    if pyContains e cur then appendElems cur rest transform
    else appendElems (cur ++ [getValue e transform]) rest transform

/-- Search for a contiguous sublist at any position. -/
def sublistSearch (sub : List Char) : List Char → Bool
  | [] => sub.isEmpty
  | c :: cs => sub.isPrefixOf (c :: cs) || sublistSearch sub cs

/-- Python `t in s` for strings: substring test. -/
def strContains (hay sub : String) : Bool :=
  sublistSearch sub.data hay.data

/-- The sequence branch when the slot holds a raw string: Python skips
every element that is a substring of the stored string, and raises on the
first element that is not (either the `in` test itself raises on a
non-string element, or the subsequent `append` on a `str` raises). -/
def strSlotNoOp (s : String) (elems : List PyScal) : Bool :=
  elems.all (fun e =>
    match e with
    | .pstr t => strContains s t
    | _ => false)

/-- The final-key scalar case of `__setitem__` (`utils.py:151-157`): an
empty slot is filled; a slot holding an equal value is left alone; a slot
holding a different value is upgraded to a Conflict Set with the new value
first. -/
def scalarFin (s : PyScal) (transform : String → Value) (t : Tree) (k : String) :
    Option Tree :=
  let newv := getValue s transform
  match alookup t k with
  | none => some (aupdate t k newv)
  | some old => if valueBeq old newv then some t else some (aupdate t k (mvMk newv old))

/-- The final-key sequence case of `__setitem__` (`utils.py:139-149`): a
missing slot becomes a fresh list; a mapping slot trips the assertion; a
list slot is extended with de-duplication; a scalar slot raises (`in` on a
non-container), except for the string-slot corner where every element is a
substring, which falls through as a no-op. -/
def seqFin (elems : List PyScal) (transform : String → Value) (t : Tree) (k : String) :
    Option Tree :=
  match alookup t k with
  | none => some (aupdate t k (.vlist (appendElems [] elems transform)))
  | some (.vmap _) => none
  | some (.vlist cur) => some (aupdate t k (.vlist (appendElems cur elems transform)))
  | some (.vstr s) => if strSlotNoOp s elems then some t else none
  | some _ => none

/-- The navigation loop of `__setitem__` (`utils.py:132-135`): walk all
but the last key, creating empty intermediate dicts for missing keys; an
intermediate key holding a non-mapping raises.  The final key is handled
by `fin` on the innermost dict. -/
def navigate (t : Tree) (keys : List String) (fin : Tree → String → Option Tree) :
    Option Tree :=
  match keys with
  | [] => none
  | [k] => fin t k
  | k :: k2 :: rest =>
    match alookup t k with
    | none => (navigate [] (k2 :: rest) fin).map (fun sub => aupdate t k (.vmap sub))
    | some (.vmap sub) =>
      (navigate sub (k2 :: rest) fin).map (fun sub2 => aupdate t k (.vmap sub2))
    | some _ => none

mutual

/-- `TemplateDict.__setitem__` (`utils.py:120-157`) after the initial
`_get_transform` unwrapping: a mapping value is assigned entry by entry
one level deeper with the same fallback transform; otherwise navigate the
key path and apply the sequence or scalar case at the final key.  `none`
models the exceptions `__setitem__` raises (failed assertions, `in` or
item assignment on non-containers, and an empty key path reaching
`keys[-1]`). -/
def setItemGo (t : Tree) (keys : List String) (v : PyVal) (transform : String → Value) :
    Option Tree :=
  match v with
  | .pmap entries => setItemMap t keys entries transform
  | .pseq elems => navigate t keys (seqFin elems transform)
  | .scal s => navigate t keys (scalarFin s transform)

/-- The mapping-recursion loop of `__setitem__` (`utils.py:125-128`). -/
def setItemMap (t : Tree) (keys : List String) (entries : List (String × PyVal))
    (transform : String → Value) : Option Tree :=
  match entries with
  | [] => some t
  | (k, v) :: rest =>
    match setItemGo t (keys ++ [k]) v transform with
    | none => none
    | some t2 => setItemMap t2 keys rest transform

end

/-- The default `TemplateDict` assignment `d[keys] = value`
(`utils.py:184-187`): an unwrapped value gets the `Requires` constructor
as its transform. -/
def defaultTransform (s : String) : Value :=
  .vreq ⟨s, false, none, []⟩

/-- `d[keys] = value` with the default transform. -/
def setItem (t : Tree) (keys : List String) (v : PyVal) : Option Tree :=
  setItemGo t keys v defaultTransform

/-- The external conflict prompter (`click.prompt` with a `click.Choice`
of the resolved candidates): given the ordered option list it returns the
user's choice. -/
abbrev Prompter := List (Option String) → Option String

/-- A prompter that deterministically picks the first offered option. -/
def firstPrompter : Prompter :=
  fun opts => opts.headD none

/-- The value a resolution result becomes when stored back into the tree:
`None` or the produced string. -/
def optVal : Option String → Value
  | none => .vnone
  | some s => .vstr s

mutual

/-- Invoking a callable tree leaf with the environment: `Requires.__call__`
for expressions, `MultipleValues.__call__` (`utils.py:96-105`) for
conflict sets — resolve every candidate in order (threading the
environment) and return the prompter's choice among the options.
Non-callable values are never invoked by the engine; invoking one is
modelled as a raise. -/
def resolveValue (interp : SanInterp) (pr : Prompter) (v : Value) (env : Env) :
    Option (Option String × Env) :=
  match v with
  | .vreq r => Requires.call interp r env
  | .vmult l =>
    match resolveCands interp pr l env with
    | none => none
    | some (opts, env2) => some (pr opts, env2)
  | _ => none
termination_by sizeOf v
decreasing_by all_goals simp_wf <;> omega

/-- The candidate list comprehension of `MultipleValues.__call__`: a
callable candidate is resolved against the environment, a raw string or
`None` stands for itself; a non-string non-callable candidate leaves the
modelled fragment. -/
def resolveCands (interp : SanInterp) (pr : Prompter) (l : List Value) (env : Env) :
    Option (List (Option String) × Env) :=
  match l with
  | [] => some ([], env)
  | v :: vs =>
    match
      (if pyCallable v then resolveValue interp pr v env
       else
         match v with
         | .vstr s => some (some s, env)
         | .vnone => some (none, env)
         | _ => none) with
    | none => none
    | some (o, env2) =>
      match resolveCands interp pr vs env2 with
      | none => none
      | some (os, env3) => some (o :: os, env3)
termination_by sizeOf l
decreasing_by all_goals simp_wf <;> omega

end

mutual

/-- `TemplateVisitor.__call__` (`templates.py:232-251`): process every
entry of the mapping in order, then delete every key whose value ended up
`None`. -/
def visitTree (interp : SanInterp) (pr : Prompter) (t : Tree) (env : Env) :
    Option (Tree × Env) :=
  match visitEntries interp pr t env with
  | none => none
  | some (es, env2) => some (es.filter (fun kv => !isNoneV kv.2), env2)
termination_by sizeOf t * 2 + 1
decreasing_by all_goals simp_wf <;> omega

/-- The first pass of the visitor over the entries of one mapping. -/
def visitEntries (interp : SanInterp) (pr : Prompter) (t : Tree) (env : Env) :
    Option (Tree × Env) :=
  match t with
  | [] => some ([], env)
  | (k, v) :: rest =>
    match visitOne interp pr v env with
    | none => none
    | some (v2, env2) =>
      match visitEntries interp pr rest env2 with
      | none => none
      | some (es, env3) => some ((k, v2) :: es, env3)
termination_by sizeOf t * 2
decreasing_by all_goals simp_wf <;> omega

/-- One entry of the visitor pass (`templates.py:235-248`): a callable is
replaced by its resolution result; a nested mapping is visited and turned
into `None` if it came back empty; a sequence has its elements processed
and is turned into `None` if every element ended up `None`; anything else
is left alone. -/
def visitOne (interp : SanInterp) (pr : Prompter) (v : Value) (env : Env) :
    Option (Value × Env) :=
  if pyCallable v then
    match resolveValue interp pr v env with
    | none => none
    | some (o, env2) => some (optVal o, env2)
  else
    match v with
    | .vmap sub =>
      match visitTree interp pr sub env with
      | none => none
      | some (sub2, env2) => some ((if sub2.isEmpty then .vnone else .vmap sub2), env2)
    | .vlist es =>
      match visitElems interp pr es env with
      | none => none
      | some (es2, env2) =>
        some ((if es2.all isNoneV then .vnone else .vlist es2), env2)
    | other => some (other, env)
termination_by sizeOf v * 2
decreasing_by all_goals simp_wf <;> omega

/-- One iteration of the sequence loop of the visitor
(`templates.py:243-246`): a callable element is replaced by its resolution
result; a mapping element is visited in place (and stays a mapping even if
it came back empty); any other element is left untouched. -/
def visitOneElem (interp : SanInterp) (pr : Prompter) (e : Value) (env : Env) :
    Option (Value × Env) :=
  if pyCallable e then
    match resolveValue interp pr e env with
    | none => none
    | some (o, env2) => some (optVal o, env2)
  else
    match e with
    | .vmap sub =>
      match visitTree interp pr sub env with
      | none => none
      | some (sub2, env2) => some (Value.vmap sub2, env2)
    | other => some (other, env)
termination_by sizeOf e * 2
decreasing_by all_goals simp_wf <;> omega

/-- The sequence loop of the visitor (`templates.py:242-246`): process the
elements in order; no element is ever removed from the list. -/
def visitElems (interp : SanInterp) (pr : Prompter) (es : List Value) (env : Env) :
    Option (List Value × Env) :=
  match es with
  | [] => some ([], env)
  | e :: rest =>
    match visitOneElem interp pr e env with
    | none => none
    | some (e2, env2) =>
      match visitElems interp pr rest env2 with
      | none => none
      | some (es2, env3) => some (e2 :: es2, env3)
termination_by sizeOf es * 2 + 1
decreasing_by all_goals simp_wf <;> omega

end

/-- Walk nested mappings along a key path. -/
def pathSub (t : Tree) : List String → Option Tree
  | [] => some t
  | k :: rest =>
    match alookup t k with
    | some (.vmap sub) => pathSub sub rest
    | _ => none

/-- The value stored at a nested key path (every intermediate key must
hold a mapping). -/
def treePathLookup (t : Tree) (ks : List String) (k : String) : Option Value :=
  match pathSub t ks with
  | some sub => alookup sub k
  | none => none

/-- A chain of singleton nested mappings ending in the given tree. -/
def nestPath : List String → Tree → Tree
  | [], t => t
  | k :: rest, t => [(k, .vmap (nestPath rest t))]

/-- A sanitizer table for concrete instances: every tag names the identity
sanitizer. -/
def interp0 : SanInterp := fun _ _ v => v

/-- Concrete expression with a single placeholder and no overrides. -/
def reqA : ReqData := ⟨"{A}", false, none, []⟩

/-- Concrete expression whose override name does not occur in its
pattern. -/
def reqC7 : ReqData := ⟨"{A}", false, none, [("B", "x")]⟩

/-- Concrete environment binding `A` to a non-empty value. -/
def envA : Env := ⟨[("A", ⟨"x", false⟩)]⟩

/-- Concrete environment where `A` has been auto-vivified empty. -/
def envA0 : Env := ⟨[("A", ⟨"", false⟩)]⟩

/-- A value whose candidate list (if it is a Conflict Set) is free of
nested Conflict Sets. -/
def flatCandB : Value → Bool
  | .vmult l => l.all (fun c => !isMultB c)
  | _ => true

theorem alookup_append_of_none {α : Type} {l1 : List (String × α)} {k : String}
    (l2 : List (String × α)) (h : alookup l1 k = none) :
    alookup (l1 ++ l2) k = alookup l2 k := by
  induction l1 with
  | nil => simp
  | cons hd tl ih =>
    obtain ⟨k1, v⟩ := hd
    simp only [alookup] at h ⊢
    split at h
    · exact absurd h (by simp)
    · simpa [*] using ih h

theorem alookup_append_of_some {α : Type} {l1 : List (String × α)} {k : String} {v : α}
    (l2 : List (String × α)) (h : alookup l1 k = some v) :
    alookup (l1 ++ l2) k = some v := by
  induction l1 with
  | nil => simp [alookup] at h
  | cons hd tl ih =>
    obtain ⟨k1, w⟩ := hd
    simp only [alookup] at h ⊢
    split at h
    · simpa [*] using h
    · simpa [*] using ih h

theorem aupdate_eq_of_lookup {α : Type} {l : List (String × α)} {k : String} {v : α}
    (h : alookup l k = some v) : aupdate l k v = l := by
  induction l with
  | nil => simp [alookup] at h
  | cons hd tl ih =>
    obtain ⟨k1, w⟩ := hd
    simp only [alookup] at h
    split at h
    · cases h
      simp_all [aupdate]
    · simp_all [aupdate]

theorem Env.pull_lookupVal (e : Env) (j k : String) :
    ((e.pull j).2).lookupVal k = e.lookupVal k := by
  unfold Env.pull
  cases h : e.lookup j with
  | some ent => simp
  | none =>
    unfold Env.lookup at h
    unfold Env.lookupVal Env.lookup
    by_cases hk : alookup e.entries k = none
    · rw [hk, alookup_append_of_none _ hk]
      by_cases hjk : j = k
      · subst hjk
        simp [alookup]
      · simp [alookup, hjk]
    · obtain ⟨ent, hent⟩ := Option.ne_none_iff_exists'.mp hk
      rw [hent, alookup_append_of_some _ hent]

theorem pushKw_cons (r : ReqData) (it : FmtItem) (items : List FmtItem) (env : Env) :
    pushKw r (it :: items) env =
      pushKw r items
        (match it.field with
         | some k =>
           match alookup r.kwargs k with
           | some v => env.push k v r.confirmed
           | none => env
         | none => env) := by
  rfl

theorem pushKw_all_none (r : ReqData) (items : List FmtItem) (env : Env)
    (hl : ∀ it ∈ items, it.field = none) : pushKw r items env = env := by
  induction items with
  | nil => rfl
  | cons it rest ih =>
    rw [pushKw_cons, hl it (by simp)]
    exact ih (fun x hx => hl x (by simp [hx]))

theorem pullArgs_env_lookupVal (interp : SanInterp) (r : ReqData) :
    ∀ (items : List FmtItem) (args : List (String × String)) (env : Env) (k : String),
      ((pullArgs interp r items args env).2).lookupVal k = env.lookupVal k := by
  intro items
  induction items with
  | nil => intro args env k; rfl
  | cons it rest ih =>
    intro args env k
    cases hf : it.field with
    | none =>
      simp only [pullArgs, hf]
      exact ih _ _ _
    | some j =>
      simp only [pullArgs, hf]
      rw [ih _ _ _]
      exact env.pull_lookupVal j k

theorem formatWith_all_none (items : List FmtItem) (args : List (String × String))
    (h : ∀ it ∈ items, it.field = none) : formatWith items args = litText items := by
  unfold formatWith litText
  apply List.foldl_ext
  intro acc it hit
  rw [h it hit]
  simp

theorem pullArgs_all_none (interp : SanInterp) (r : ReqData) :
    ∀ (items : List FmtItem) (args : List (String × String)) (env : Env),
      (∀ it ∈ items, it.field = none) → pullArgs interp r items args env = (args, env) := by
  intro items
  induction items with
  | nil => intro args env _; rfl
  | cons it rest ih =>
    intro args env h
    simp only [pullArgs, h it (by simp)]
    exact ih _ _ (fun x hx => h x (by simp [hx]))

/-- C6: a template expression whose pattern contains zero placeholders
resolves, against every environment, to its literal text (never `None`,
never an exception), leaving the environment untouched. -/
theorem literal_pattern_resolves (interp : SanInterp) (conf : Bool) (san : Option Nat)
    (kwargs : List (String × String)) (env : Env) (s : String) (items : List FmtItem)
    (hp : parseFmt s = some items) (hl : ∀ it ∈ items, it.field = none) :
    Requires.call interp ⟨s, conf, san, kwargs⟩ env = some (some (litText items), env) := by
  unfold Requires.call
  rw [hp]
  dsimp only
  rw [pushKw_all_none _ _ _ hl, pullArgs_all_none interp _ items [] env hl]
  simp [formatWith_all_none items [] hl]

theorem literal_pattern_resolves_witness :
    Requires.call interp0 ⟨"abc", false, none, []⟩ envA = some (some "abc", envA) := by
  rw [literal_pattern_resolves interp0 false none [] envA "abc" [⟨"abc", none⟩]
    (by decide) (by decide)]
  decide

/-- C7 counterexample: the claim says every override pair is pushed into
the environment before resolution, but the code only pushes overrides
whose name occurs as a placeholder in the pattern.  Resolving `\x7bA\x7d`
with the override `B = "x"` completes normally yet leaves the environment
without any entry for `B`. -/
theorem overrides_push_cex :
    Requires.call interp0 reqC7 envA = some (some "x", envA) ∧ envA.lookup "B" = none := by
  decide

theorem navigate_cons_none (t : Tree) (k0 k2 : String) (rest : List String)
    (fin : Tree → String → Option Tree) (h : alookup t k0 = none) :
    navigate t (k0 :: k2 :: rest) fin =
      (navigate [] (k2 :: rest) fin).map (fun sub => aupdate t k0 (.vmap sub)) := by
  rw [navigate, h]

theorem navigate_cons_vmap (t : Tree) (k0 k2 : String) (rest : List String)
    (fin : Tree → String → Option Tree) (sub : Tree)
    (h : alookup t k0 = some (.vmap sub)) :
    navigate t (k0 :: k2 :: rest) fin =
      (navigate sub (k2 :: rest) fin).map (fun sub2 => aupdate t k0 (.vmap sub2)) := by
  rw [navigate, h]

theorem setItem_fresh (ks0 : List String) (k : String) (sv : PyScal)
    (tr : String → Value) :
    setItemGo [] (ks0 ++ [k]) (.scal sv) tr = some (nestPath ks0 [(k, getValue sv tr)]) := by
  induction ks0 with
  | nil => simp [setItemGo, navigate, scalarFin, alookup, aupdate, nestPath]
  | cons k0 rest ih =>
    rcases hr : rest ++ [k] with _ | ⟨a, b⟩
    · exact absurd hr (by simp)
    · simp only [setItemGo] at ih ⊢
      rw [List.cons_append, hr, navigate_cons_none _ _ _ _ _ (by rfl)]
      rw [← hr, ih]
      simp [aupdate, nestPath]

theorem setItem_nest_conflict (ks0 : List String) (k : String) (sv : PyScal)
    (tr : String → Value) (w : Value) (hne : valueBeq w (getValue sv tr) = false) :
    setItemGo (nestPath ks0 [(k, w)]) (ks0 ++ [k]) (.scal sv) tr =
      some (nestPath ks0 [(k, mvMk (getValue sv tr) w)]) := by
  induction ks0 with
  | nil =>
    simp only [setItemGo, nestPath, List.nil_append]
    rw [navigate]
    unfold scalarFin
    rw [alookup]
    simp [hne, aupdate]
  | cons k0 rest ih =>
    rcases hr : rest ++ [k] with _ | ⟨a, b⟩
    · exact absurd hr (by simp)
    · simp only [setItemGo] at ih ⊢
      simp only [nestPath, List.cons_append]
      rw [hr, navigate_cons_vmap _ _ _ _ _ (nestPath rest [(k, w)]) (by simp [alookup])]
      rw [← hr, ih]
      simp [aupdate, nestPath]

theorem treePathLookup_nest (ks0 : List String) (k : String) (v : Value) :
    treePathLookup (nestPath ks0 [(k, v)]) ks0 k = some v := by
  induction ks0 with
  | nil => simp [treePathLookup, nestPath, pathSub, alookup]
  | cons k0 rest ih =>
    unfold treePathLookup at ih ⊢
    simp only [nestPath, pathSub, alookup, if_pos rfl]
    exact ih

theorem navigate_pathSub_noop (fin : Tree → String → Option Tree) :
    ∀ (ks : List String) (t sub : Tree) (k : String),
      pathSub t ks = some sub → fin sub k = some sub →
      navigate t (ks ++ [k]) fin = some t := by
  intro ks
  induction ks with
  | nil =>
    intro t sub k hpath hfin
    simp only [pathSub] at hpath
    cases hpath
    simpa [navigate] using hfin
  | cons k0 rest ih =>
    intro t sub k hpath hfin
    simp only [pathSub] at hpath
    rcases h0 : alookup t k0 with _ | w
    · simp only [h0] at hpath
      exact absurd hpath (by simp)
    · simp only [h0] at hpath
      cases w with
      | vmap sub1 =>
        rcases hr : rest ++ [k] with _ | ⟨a, b⟩
        · exact absurd hr (by simp)
        · rw [List.cons_append, hr, navigate_cons_vmap _ _ _ _ _ sub1 h0, ← hr,
            ih sub1 sub k hpath hfin]
          simp [aupdate_eq_of_lookup h0]
      | vstr s => simp at hpath
      | vnone => simp at hpath
      | vreq r => simp at hpath
      | vmult l => simp at hpath
      | vlist l => simp at hpath

/-- C2: assigning two distinct scalar values to the same (fresh) key path,
the slot becomes a Conflict Set with the most recent value first and the
previous one second; resolving that Conflict Set with a prompter that
picks the first offered option yields the most recently assigned value. -/
theorem conflict_set_order_first_choice (ks0 : List String) (k a b : String)
    (interp : SanInterp) (env : Env) (hab : ¬a = b) :
    ∃ t1 t2 : Tree,
      setItemGo [] (ks0 ++ [k]) (.scal (.pstr a)) Value.vstr = some t1 ∧
      setItemGo t1 (ks0 ++ [k]) (.scal (.pstr b)) Value.vstr = some t2 ∧
      treePathLookup t2 ks0 k = some (.vmult [.vstr b, .vstr a]) ∧
      resolveValue interp firstPrompter (.vmult [.vstr b, .vstr a]) env =
        some (some b, env) := by
  have hne : valueBeq (Value.vstr a) (getValue (.pstr b) Value.vstr) = false := by
    simp only [getValue, valueBeq]
    simpa using hab
  refine ⟨nestPath ks0 [(k, .vstr a)], nestPath ks0 [(k, .vmult [.vstr b, .vstr a])],
    setItem_fresh ks0 k (.pstr a) Value.vstr, ?_, treePathLookup_nest ks0 k _, ?_⟩
  · exact setItem_nest_conflict ks0 k (.pstr b) Value.vstr (.vstr a) hne
  · simp [resolveValue, resolveCands, pyCallable, firstPrompter]

theorem conflict_set_order_first_choice_witness :
    resolveValue interp0 firstPrompter (.vmult [.vstr "y", .vstr "x"]) ⟨[]⟩ =
      some (some "y", ⟨[]⟩) := by
  obtain ⟨t1, t2, h1, h2, h3, h4⟩ :=
    conflict_set_order_first_choice [] "k" "x" "y" interp0 ⟨[]⟩ (by decide)
  exact h4

/-- C8: assigning to a scalar key path a value that compares equal to the
one already stored there leaves the whole tree unchanged — no overwrite
and no Conflict Set. -/
theorem equal_scalar_idempotent (t : Tree) (ks : List String) (k : String) (sv : PyScal)
    (tr : String → Value) (w : Value) (h1 : treePathLookup t ks k = some w)
    (h2 : valueBeq w (getValue sv tr) = true) :
    setItemGo t (ks ++ [k]) (.scal sv) tr = some t := by
  unfold treePathLookup at h1
  rcases hp : pathSub t ks with _ | sub
  · simp only [hp] at h1
    exact absurd h1 (by simp)
  · simp only [hp] at h1
    simp only [setItemGo]
    apply navigate_pathSub_noop (scalarFin sv tr) ks t sub k hp
    unfold scalarFin
    rw [h1]
    simp [h2]

theorem equal_scalar_idempotent_witness :
    setItemGo [("a", Value.vstr "x")] ["a"] (.scal (.pstr "x")) Value.vstr =
      some [("a", Value.vstr "x")] :=
  equal_scalar_idempotent [("a", Value.vstr "x")] [] "a" (.pstr "x") Value.vstr
    (Value.vstr "x") rfl (by simp [valueBeq, getValue])

/-- C5: assigning, as a sequence element, a value already present (by the
code's equality check) in the list stored at that key path leaves the
whole tree unchanged — the length and the stored elements do not
change. -/
theorem seq_reassign_noop (t : Tree) (ks : List String) (k : String) (sv : PyScal)
    (tr : String → Value) (l : List Value) (h1 : treePathLookup t ks k = some (.vlist l))
    (h2 : pyContains sv l = true) :
    setItemGo t (ks ++ [k]) (.pseq [sv]) tr = some t := by
  unfold treePathLookup at h1
  rcases hp : pathSub t ks with _ | sub
  · simp only [hp] at h1
    exact absurd h1 (by simp)
  · simp only [hp] at h1
    simp only [setItemGo]
    apply navigate_pathSub_noop (seqFin [sv] tr) ks t sub k hp
    unfold seqFin
    rw [h1]
    simp [appendElems, h2, aupdate_eq_of_lookup h1]

theorem seq_reassign_noop_witness :
    setItemGo [("s", Value.vlist [Value.vstr "x"])] ["s"] (.pseq [.pstr "x"])
        Value.vstr = some [("s", Value.vlist [Value.vstr "x"])] :=
  seq_reassign_noop [("s", Value.vlist [Value.vstr "x"])] [] "s" (.pstr "x") Value.vstr
    [Value.vstr "x"] rfl (by simp [pyContains, scalRaw, valueBeq])

/-- C10: assigning an empty mapping at any key path is a complete no-op:
the mapping branch of `__setitem__` returns before any navigation, so no
leaf is stored and no intermediate map is created. -/
theorem empty_mapping_noop (t : Tree) (keys : List String) (tr : String → Value) :
    setItemGo t keys (.pmap []) tr = some t := by
  simp [setItemGo, setItemMap]

/-- C4 counterexample: constructing a Conflict Set from two operands that
are both already Conflict Sets does not produce a flat candidate list —
the head operand stays nested as a single candidate (only the tail is
flattened). -/
theorem conflict_flatten_cex :
    mvMk (.vmult [.vstr "a", .vstr "b"]) (.vmult [.vstr "c", .vstr "d"]) =
        .vmult [.vmult [.vstr "a", .vstr "b"], .vstr "c", .vstr "d"]
      ∧ (mvCandidates
          (mvMk (.vmult [.vstr "a", .vstr "b"]) (.vmult [.vstr "c", .vstr "d"]))).any
          isMultB = true :=
  ⟨rfl, rfl⟩

/-- C4 amended: the constructor flattens an already-Conflict-Set tail into
the candidate list; the head operand is kept as a single candidate, so the
result is flat whenever the head is not itself a Conflict Set and the tail
is flat. -/
theorem conflict_flatten_amended (h t : Value) (hh : isMultB h = false)
    (ht : flatCandB t = true) :
    (∀ l, t = .vmult l → mvMk h t = .vmult (h :: l)) ∧
      (mvCandidates (mvMk h t)).all (fun c => !isMultB c) = true := by
  have hstep : ∀ t2 : Value, isMultB t2 = false →
      ([h, t2].all (fun c => !isMultB c)) = true := by
    intro t2 h2
    rw [List.all_cons, List.all_cons, List.all_nil, hh, h2]
    rfl
  constructor
  · rintro l rfl
    rfl
  · cases t with
    | vmult l =>
      show ((h :: l).all (fun c => !isMultB c)) = true
      rw [List.all_cons, hh]
      simp only [Bool.not_false, Bool.true_and]
      simpa [flatCandB] using ht
    | vstr s => exact hstep _ rfl
    | vnone => exact hstep _ rfl
    | vreq r => exact hstep _ rfl
    | vmap m => exact hstep _ rfl
    | vlist l => exact hstep _ rfl

theorem conflict_flatten_amended_witness :
    mvMk (.vstr "a") (.vmult [.vstr "c"]) = .vmult [.vstr "a", .vstr "c"] :=
  (conflict_flatten_amended (.vstr "a") (.vmult [.vstr "c"]) rfl rfl).1 [.vstr "c"] rfl


theorem visitElems_length (interp : SanInterp) (pr : Prompter) :
    ∀ (es : List Value) (env : Env) (es2 : List Value) (env2 : Env),
      visitElems interp pr es env = some (es2, env2) → es2.length = es.length := by
  intro es
  induction es with
  | nil =>
    intro env es2 env2 h
    simp only [visitElems] at h
    cases h
    rfl
  | cons e rest ih =>
    intro env es2 env2 h
    simp only [visitElems] at h
    rcases hstep : visitOneElem interp pr e env with _ | ⟨e2, envm⟩
    · simp only [hstep] at h
      exact absurd h (by simp)
    · simp only [hstep] at h
      rcases hrest : visitElems interp pr rest envm with _ | ⟨es3, env3⟩
      · simp only [hrest] at h
        exact absurd h (by simp)
      · simp only [hrest] at h
        simp only [Option.some.injEq, Prod.mk.injEq] at h
        rw [← h.1]
        simp [ih envm es3 env3 hrest]

/-- C3: pruning is bottom-up and transitive in one pass — a tree of the
form `(outer, (inner, e))`, where the expression `e` resolves to `None`,
is visited to the empty tree: the inner key is deleted, the emptied inner
mapping turns the outer slot into `None`, and the outer key is deleted in
the same traversal. -/
theorem nested_prune_transitive (interp : SanInterp) (pr : Prompter) (outer inner : String)
    (r : ReqData) (env env2 : Env)
    (h : Requires.call interp r env = some (none, env2)) :
    visitTree interp pr [(outer, .vmap [(inner, .vreq r)])] env = some ([], env2) := by
  simp [visitTree, visitEntries, visitOne, resolveValue, pyCallable, h, optVal, isNoneV]

theorem nested_prune_transitive_witness :
    visitTree interp0 firstPrompter [("outer", .vmap [("inner", .vreq reqA)])] ⟨[]⟩ =
      some ([], envA0) :=
  nested_prune_transitive interp0 firstPrompter "outer" "inner" reqA ⟨[]⟩ envA0 (by decide)

/-- C9: a sequence node is replaced by `None` (and its key pruned) exactly
when every processed element is `None` — otherwise the key keeps the full
processed list, whose length always equals the original length: `None`
elements are never filtered out of a surviving sequence. -/
theorem seq_prune_characterization (interp : SanInterp) (pr : Prompter) (k : String)
    (es : List Value) (env : Env) :
    (visitTree interp pr [(k, .vlist es)] env =
        match visitElems interp pr es env with
        | none => none
        | some (es2, env2) =>
          some ((if es2.all isNoneV then [] else [(k, .vlist es2)]), env2))
      ∧ ∀ (es2 : List Value) (env2 : Env),
          visitElems interp pr es env = some (es2, env2) → es2.length = es.length := by
  constructor
  · rcases hres : visitElems interp pr es env with _ | ⟨es2, env2⟩
    · simp [visitTree, visitEntries, visitOne, pyCallable, hres]
    · by_cases hall : es2.all isNoneV
      · simp [visitTree, visitEntries, visitOne, pyCallable, hres, hall, isNoneV]
      · simp [visitTree, visitEntries, visitOne, pyCallable, hres, hall, isNoneV]
  · exact fun es2 env2 h => visitElems_length interp pr es env es2 env2 h

theorem seq_prune_characterization_witness :
    ([Value.vnone, Value.vstr "y"] : List Value).length =
      ([Value.vreq reqA, Value.vstr "y"] : List Value).length := by
  have hcall : Requires.call interp0 reqA ⟨[]⟩ = some (none, envA0) := by decide
  exact (seq_prune_characterization interp0 firstPrompter "k" [.vreq reqA, .vstr "y"]
      ⟨[]⟩).2 [.vnone, .vstr "y"] envA0
    (by simp [visitElems, visitOneElem, resolveValue, pyCallable, optVal, hcall])

end Incipyt


